import Mathlib

/-!
Shallow embedding of the HTML-to-document translation engine of
`src/app.py` (view-only document crawler), together with theorems
checking the natural-language specification against it.

The embedding models, faithfully to the Python source:
  * `parse_style`       (app.py lines 64-72)
  * `add_highlight`     (app.py lines 50-62), including the fact that
    `run._r.rPr` is `None` when no character property was set earlier
  * `hex_to_rgb`        (app.py lines 45-47)
  * `process_node`      (app.py lines 74-148)
  * the body-translation loop of `crawl_and_get_doc_object`
                        (app.py lines 183-219)

Python strings are modelled as Lean `String`; the Python string
operations used by the source (`split`, `strip`, `lower`, `startswith`,
`replace`, substring `in`) are given explicit structural definitions
below so that all proofs evaluate inside the kernel.
-/

set_option maxRecDepth 10000

namespace DocxCrawler

/-! ## Python string operations -/

/-- Python `sep in`-style membership of a character. -/
def hasChar (c : Char) (s : String) : Bool :=
  s.data.any (fun d => d = c)

/-- Python `s.split(sep)` for a one-character separator.
`"".split(sep)` is `[""]`, exactly as in Python. -/
def splitOnCharList (sep : Char) : List Char → List (List Char)
  | [] => [[]]
  | c :: cs =>
    let r := splitOnCharList sep cs
    if c = sep then [] :: r
    else
      match r with
      | h :: t => (c :: h) :: t
      | [] => [[c]]

/-- String wrapper for `splitOnCharList`. -/
def splitOnChar (sep : Char) (s : String) : List String :=
  (splitOnCharList sep s.data).map String.mk

/-- Python `s.split(sep, 1)` when `sep` occurs: the part before the first
occurrence and the part after it; `none` when `sep` does not occur. -/
def splitOnFirst (sep : Char) : List Char → Option (List Char × List Char)
  | [] => none
  | c :: cs =>
    if c = sep then some ([], cs)
    else
      match splitOnFirst sep cs with
      | some (a, b) => some (c :: a, b)
      | none => none

/-- Whitespace set of Python `str.strip()` (restricted to the ASCII
whitespace the source can meet). -/
def isPySpace (c : Char) : Bool :=
  c = ' ' || c = '\t' || c = '\n' || c = '\r'

/-- Python `s.strip()`. -/
def pyStrip (s : String) : String :=
  String.mk ((s.data.dropWhile isPySpace).reverse.dropWhile isPySpace |>.reverse)

/-- Python `s.lower()` (ASCII). -/
def pyLower (s : String) : String :=
  String.mk (s.data.map Char.toLower)

/-- Is `pre` a leading segment of `l`? -/
def leadsList (pre : List Char) (l : List Char) : Bool :=
  match pre with
  | [] => true
  | a :: as =>
    match l with
    | [] => false
    | b :: bs => a = b && leadsList as bs

/-- Python substring membership `needle in hay`. -/
def containsSubList (needle : List Char) : List Char → Bool
  | [] => leadsList needle []
  | c :: cs => leadsList needle (c :: cs) || containsSubList needle cs

/-- Python `needle in hay` on strings. -/
def containsSub (needle hay : String) : Bool :=
  containsSubList needle.data hay.data

/-- Python `s.startswith("#")`. -/
def startsWithHash (s : String) : Bool :=
  match s.data with
  | c :: _ => c = '#'
  | [] => false

/-- Python `s.replace("#", "")`: every occurrence of `#` removed. -/
def removeHash (s : String) : String :=
  String.mk (s.data.filter (fun c => c ≠ '#'))

/-! ## Style maps (Python `dict`, insertion ordered) -/

/-- A parsed inline style declaration: ordered key/value pairs. -/
abbrev StyleMap := List (String × String)

/-- Python `d[k] = v`: update in place when the key exists, else append. -/
def dictInsert (m : StyleMap) (k v : String) : StyleMap :=
  if m.any (fun p => p.1 = k) then
    m.map (fun p => if p.1 = k then (k, v) else p)
  else m ++ [(k, v)]

/-- Python `k in d` / `d[k]` combined: the stored value, if any. -/
def dictFind (m : StyleMap) (k : String) : Option String :=
  (m.find? (fun p => p.1 = k)).map Prod.snd

/-- One segment of a style declaration: `key.strip().lower()` and
`val.strip()` when the segment contains a `:`; `none` otherwise
(app.py lines 69-71). -/
def segKV (item : String) : Option (String × String) :=
  match splitOnFirst ':' item.data with
  | none => none
  | some (k, v) => some (pyLower (pyStrip (String.mk k)), pyStrip (String.mk v))

/-- One loop iteration of `parse_style`: segments without a `:` leave the
dict unchanged, the rest are stored. -/
def styleStep (styles : StyleMap) (item : String) : StyleMap :=
  match segKV item with
  | none => styles
  | some (k, v) => dictInsert styles k v

/-- Model of `parse_style` (app.py lines 64-72): split on `;`, keep segments with a
`:`, store into a dict. -/
def parse_style (style_str : String) : StyleMap :=
  if style_str = "" then []
  else (splitOnChar ';' style_str).foldl styleStep []

/-! ## HTML nodes

A parsed HTML tree as BeautifulSoup presents it to the source:
`text` is a `NavigableString` (whose `name` is `None`), `elem` is a
`Tag` with a name, an attribute dict and children (`.contents`).
Children are a `NodeList` (an inlined list) so that every tree walk is
structurally recursive and evaluates inside the kernel. -/

mutual

inductive Node where
  | text (s : String)
  | elem (tag : String) (attrs : List (String × String)) (children : NodeList)

inductive NodeList where
  | nil
  | cons (n : Node) (ns : NodeList)

end

/-- Build a `NodeList` from a `List Node` (notation helper). -/
def nodes : List Node → NodeList
  | [] => .nil
  | n :: ns => .cons n (nodes ns)

/-- Attribute lookup, `element.get(key)`. -/
def attrFind (attrs : List (String × String)) (k : String) : Option String :=
  (attrs.find? (fun p => p.1 = k)).map Prod.snd

/-- Model of the style-attribute read (default empty) on a node. -/
def styleAttr : Node → String
  | .text _ => ""
  | .elem _ attrs _ => (attrFind attrs "style").getD ""

mutual

/-- Model of `get_text`: concatenation of every descendant string. -/
def getText : Node → String
  | .text s => s
  | .elem _ _ cs => getTextList cs

/-- Text extraction over a list of sibling nodes. -/
def getTextList : NodeList → String
  | .nil => ""
  | .cons n ns => getText n ++ getTextList ns

end

mutual

/-- BeautifulSoup `find(tag)` applied to one node of a forest walk. -/
def findTagNode (tag : String) : Node → Option Node
  | .text _ => none
  | .elem t a c =>
    if t = tag then some (.elem t a c)
    else findTag tag c

/-- BeautifulSoup `find(tag)` over a forest: first element with the given
name, in document (preorder) order. -/
def findTag (tag : String) : NodeList → Option Node
  | .nil => none
  | .cons n ns =>
    match findTagNode tag n with
    | some r => some r
    | none => findTag tag ns

end

/-- Model of `find(tag)` on an element: first matching descendant (self excluded). -/
def findDesc (tag : String) : Node → Option Node
  | .text _ => none
  | .elem _ _ cs => findTag tag cs

mutual

/-- Contribution of one node to a recursive p-element search: the node itself when it is a
`p` element, then every `p` among its descendants. -/
def findAllPNode : Node → List Node
  | .text _ => []
  | .elem t a c =>
    (if t = "p" then [Node.elem t a c] else []) ++ findAllPList c

/-- BeautifulSoup recursive p-element search over a forest, in document order. -/
def findAllPList : NodeList → List Node
  | .nil => []
  | .cons n ns => findAllPNode n ++ findAllPList ns

end

/-- Direct children of a node (the `contents` list). -/
def childrenOf : Node → NodeList
  | .text _ => .nil
  | .elem _ _ cs => cs

/-! ## Document model

Mirrors the python-docx objects the source manipulates.  The
character properties of a run live in an optional `RPr` element, exactly as in
the underlying XML: `run._r.rPr` is `None` until some property setter
creates it (`run.bold = True` etc. go through `get_or_add_rPr`), while
`add_highlight` in the source reads `run._r.rPr` directly. -/

/-- Character properties of a run (the `rPr` element). -/
structure RPr where
  bold : Bool := false
  italic : Bool := false
  underline : Bool := false
  color : Option (Nat × Nat × Nat) := none
  shading : Option String := none
  deriving Repr, DecidableEq

/-- A text run; `rPr = none` models a `<w:r>` with no `<w:rPr>` child. -/
structure Run where
  text : String
  rPr : Option RPr := none
  deriving Repr, DecidableEq

/-- Bold flag of a run as python-docx reports it (absent property reads as not bold). -/
def runBold (r : Run) : Bool :=
  match r.rPr with
  | some p => p.bold
  | none => false

/-- The shading fill applied to a run, if any. -/
def runShading (r : Run) : Option String :=
  match r.rPr with
  | some p => p.shading
  | none => none

/-- One inline item of a paragraph: a text run or an embedded picture
(`paragraph.add_run().add_picture(...)` with the fetched bytes). -/
inductive Inline where
  | run (r : Run)
  | image (content : List Nat)
  deriving Repr, DecidableEq

/-- Paragraph alignment values the source can set
(`WD_ALIGN_PARAGRAPH.CENTER / RIGHT / JUSTIFY`); `none` at the paragraph
level is the python-docx default (start/left). -/
inductive Align where
  | center
  | right
  | justify
  deriving Repr, DecidableEq

/-- A paragraph: fixed formatting fields set by the assembler plus the
accumulated inline content. -/
structure Paragraph where
  spaceAfter : Nat
  lineSpacing : ℚ
  alignment : Option Align
  inlines : List Inline
  deriving Repr, DecidableEq

/-- Outcome of `requests.get(src)`: a response with a status code and a
byte payload, or a raised transport exception. -/
inductive FetchResult where
  | ok (status : Nat) (content : List Nat)
  | exn (msg : String)
  deriving Repr, DecidableEq

/-! ## Run builder (app.py lines 88-116) -/

/-- Model of `get_or_add_rPr` followed by a field update: the property setters of
python-docx create the `rPr` element when absent. -/
def setRPr (r : Run) (f : RPr → RPr) : Run :=
  { r with rPr := some (f (r.rPr.getD {})) }

/-- Hex digit table used to model `int(s, 16)`; `none` models the raised
`ValueError` that the caller of `hex_to_rgb` catches. -/
def hexDigit (c : Char) : Option Nat :=
  if '0' ≤ c ∧ c ≤ '9' then some (c.toNat - 48)
  else if 'a' ≤ c ∧ c ≤ 'f' then some (c.toNat - 87)
  else if 'A' ≤ c ∧ c ≤ 'F' then some (c.toNat - 55)
  else none

/-- Model of `int(hex_color[i : i+2], 16)` (Python slices never fail;
`int` fails on an empty or non-hex string). -/
def parseHexSlice (chars : List Char) (i : Nat) : Option Nat :=
  match (chars.drop i).take 2 with
  | [] => none
  | ds =>
    ds.foldl
      (fun acc c =>
        match acc, hexDigit c with
        | some a, some d => some (a * 16 + d)
        | _, _ => none)
      (some 0)

/-- Model of `hex_to_rgb` (app.py lines 45-47). -/
def hex_to_rgb (hex_color : String) : Option (Nat × Nat × Nat) :=
  let h := hex_color.data.dropWhile (fun c => c = '#')
  match parseHexSlice h 0, parseHexSlice h 2, parseHexSlice h 4 with
  | some r, some g, some b => some (r, g, b)
  | _, _, _ => none

/-- Model of `add_highlight` (app.py lines 50-62): appends a `w:shd` element with
fill `color_hex.replace("#", "")` to `run._r.rPr` — which raises
`AttributeError` when the run has no `rPr` element. -/
def add_highlight (run : Run) (color_hex : String) : Except String Run :=
  match run.rPr with
  | none => .error "AttributeError"
  | some p => .ok { run with rPr := some { p with shading := some (removeHash color_hex) } }

/-- Bold mapping (app.py lines 90-92). -/
def applyBold (styles : StyleMap) (r : Run) : Run :=
  match dictFind styles "font-weight" with
  | some v =>
    if containsSub "700" v || containsSub "bold" v then
      setRPr r (fun p => { p with bold := true })
    else r
  | none => r

/-- Italic mapping (app.py lines 94-96). -/
def applyItalic (styles : StyleMap) (r : Run) : Run :=
  match dictFind styles "font-style" with
  | some v =>
    if containsSub "italic" v then setRPr r (fun p => { p with italic := true }) else r
  | none => r

/-- Underline mapping (app.py lines 98-100). -/
def applyUnderline (styles : StyleMap) (r : Run) : Run :=
  match dictFind styles "text-decoration" with
  | some v =>
    if containsSub "underline" v then
      setRPr r (fun p => { p with underline := true })
    else r
  | none => r

/-- Text color mapping (app.py lines 102-110); a hex parse failure is
caught and skipped. -/
def applyColor (styles : StyleMap) (r : Run) : Run :=
  match dictFind styles "color" with
  | some ch =>
    if startsWithHash ch then
      match hex_to_rgb ch with
      | some rgb => setRPr r (fun p => { p with color := some rgb })
      | none => r
    else r
  | none => r

/-- Background color mapping (app.py lines 112-116): delegates to
`add_highlight` when the value is not `transparent` and starts with `#`. -/
def applyBackground (styles : StyleMap) (r : Run) : Except String Run :=
  match dictFind styles "background-color" with
  | some bg =>
    if bg ≠ "transparent" ∧ startsWithHash bg = true then add_highlight r bg
    else .ok r
  | none => .ok r

/-- The whole run-styling sequence of the span branch: a fresh run from
`paragraph.add_run(text)` with the five style mappings applied in source
order. -/
def buildRun (text : String) (styles : StyleMap) : Except String Run :=
  applyBackground styles
    (applyColor styles
      (applyUnderline styles
        (applyItalic styles
          (applyBold styles { text := text, rPr := none }))))

/-! ## Node translator (`process_node`, app.py lines 74-148)

`process_node` appends runs/pictures to the current paragraph and may
emit `st.warning` messages; the embedding returns the appended inline
items and the warnings.  A raised exception (the `add_highlight` crash)
is an `Except.error`. -/

/-- The `img` branch (app.py lines 118-143): fetch `src`, embed the bytes
when the status is 200, warn when the fetch raises; a response with any
other status falls through silently.  Picture embedding itself is
modelled as succeeding on the fetched bytes. -/
def processImg (fetch : String → FetchResult) (element : Node) :
    List Inline × List String :=
  match element with
  | .text _ => ([], [])
  | .elem _ attrs _ =>
    match attrFind attrs "src" with
    | none => ([], [])
    | some src =>
      if src = "" then ([], [])
      else
        match fetch src with
        | .exn msg => ([], ["Failed to download image: " ++ msg])
        | .ok status content =>
          if status = 200 then ([Inline.image content], []) else ([], [])

/-- Model of `process_node` (app.py lines 74-148).  Dispatch: `span` (with the
nested-image check), then `img`, then `NavigableString`; an element with
any other name matches no branch and the function returns having done
nothing. -/
def process_node (fetch : String → FetchResult) (element : Node) :
    Except String (List Inline × List String) :=
  match element with
  | .text s =>
    if pyStrip s ≠ "" then .ok ([Inline.run { text := s, rPr := none }], [])
    else .ok ([], [])
  | .elem tag attrs children =>
    if tag = "span" then
      let styles := parse_style ((attrFind attrs "style").getD "")
      match findTag "img" children with
      | some img => .ok (processImg fetch img)
      | none =>
        let text := getTextList children
        if text = "" then .ok ([], [])
        else
          match buildRun text styles with
          | .ok run => .ok ([Inline.run run], [])
          | .error e => .error e
    else if tag = "img" then .ok (processImg fetch (.elem tag attrs children))
    else .ok ([], [])

/-- Translation of the direct children of a paragraph, left to
right, concatenating appended inlines and warnings. -/
def processChildren (fetch : String → FetchResult) :
    NodeList → Except String (List Inline × List String)
  | .nil => .ok ([], [])
  | .cons c cs =>
    match process_node fetch c with
    | .error e => .error e
    | .ok (i1, w1) =>
      match processChildren fetch cs with
      | .error e => .error e
      | .ok (i2, w2) => .ok (i1 ++ i2, w1 ++ w2)

/-! ## Paragraph assembler (app.py lines 195-217) -/

/-- The `text-align` resolution of the assembler (app.py lines 206-214):
`center`, `right` and `justify` set the corresponding alignment, any
other or absent value leaves the python-docx default. -/
def resolveAlign : Option String → Option Align
  | some "center" => some .center
  | some "right" => some .right
  | some "justify" => some .justify
  | _ => none

/-- Loop body of `crawl_and_get_doc_object` for one `p` element:
skip when the stripped text is empty and no `img` descendant exists,
otherwise build a paragraph with fixed formatting, resolved alignment
and the inline output of the children. -/
def assembleP (fetch : String → FetchResult) (p : Node) :
    Except String (Option Paragraph × List String) :=
  if pyStrip (getText p) = "" && !(findDesc "img" p).isSome then .ok (none, [])
  else
    match processChildren fetch (childrenOf p) with
    | .error e => .error e
    | .ok (inls, ws) =>
      .ok (some { spaceAfter := 0, lineSpacing := 1,
                  alignment := resolveAlign
                    (dictFind (parse_style (styleAttr p)) "text-align"),
                  inlines := inls }, ws)

/-- The `for i, p in enumerate(elements)` loop over all found `p`
elements, accumulating paragraphs and warnings in document order. -/
def crawlBody (fetch : String → FetchResult) :
    List Node → Except String (List Paragraph × List String)
  | [] => .ok ([], [])
  | p :: rest =>
    match assembleP fetch p with
    | .error e => .error e
    | .ok (para, w) =>
      match crawlBody fetch rest with
      | .error e => .error e
      | .ok (paras, ws) =>
        match para with
        | none => .ok (paras, w ++ ws)
        | some pg => .ok (pg :: paras, w ++ ws)

/-- Body translation of `crawl_and_get_doc_object` (app.py lines
183-219): `soup.body` is the first `body` element of the parsed forest;
when there is none, the p-element search on `soup.body` raises `AttributeError`
(the surrounding code catches only the page fetch).  Title extraction is
independent of the body translation and is not modelled. -/
def crawl_and_get_doc_object (fetch : String → FetchResult)
    (root : List Node) : Except String (List Paragraph × List String) :=
  match findTag "body" (nodes root) with
  | none => .error "AttributeError"
  | some body => crawlBody fetch (findAllPList (childrenOf body))

/-- A fetch stub that always raises (the span/text paths never fetch). -/
def noFetch : String → FetchResult := fun _ => .exn "no network"


/-! ## Theorems

One theorem (plus counterexample/witness where required) per claim of
the specification, with shared helper lemmas first. -/

/-- Claim-side count: the number of segments of the declaration that
contain a `:` (the "valid `key:value` segments" of the spec). -/
def validSegCount (style_str : String) : Nat :=
  ((splitOnChar ';' style_str).filter (fun item => hasChar ':' item)).length

/-- Normalized keys of the valid segments, in segment order. -/
def segKeys (style_str : String) : List String :=
  (splitOnChar ';' style_str).filterMap (fun item => (segKV item).map Prod.fst)

theorem splitOnFirst_isSome (sep : Char) (cs : List Char) :
    (splitOnFirst sep cs).isSome = cs.any (fun d => d = sep) := by
  induction cs with
  | nil => rfl
  | cons c cs ih =>
    by_cases h : c = sep
    · simp [splitOnFirst, h]
    · cases hs : splitOnFirst sep cs with
      | none => simp [splitOnFirst, h, hs] at ih ⊢; exact ih
      | some p => cases p with
        | mk a b => simp [splitOnFirst, h, hs] at ih ⊢; exact ih

theorem segKV_isSome (item : String) :
    (segKV item).isSome = hasChar ':' item := by
  unfold segKV hasChar
  cases hs : splitOnFirst ':' item.data with
  | none => simpa [hs] using (splitOnFirst_isSome ':' item.data).symm
  | some p => cases p with
    | mk a b => simpa [hs] using (splitOnFirst_isSome ':' item.data).symm

theorem dictInsert_length (m : StyleMap) (k v : String) :
    (dictInsert m k v).length =
      if m.any (fun p => p.1 = k) then m.length else m.length + 1 := by
  unfold dictInsert
  split <;> simp

theorem dictInsert_mem (m : StyleMap) (k v : String) (p : String × String)
    (hp : p ∈ dictInsert m k v) : p ∈ m ∨ p = (k, v) := by
  unfold dictInsert at hp
  split at hp
  · rcases List.mem_map.mp hp with ⟨q, hq, hfq⟩
    by_cases h : q.1 = k
    · right
      rw [if_pos h] at hfq
      exact hfq.symm
    · left
      rw [if_neg h] at hfq
      exact hfq ▸ hq
  · rcases List.mem_append.mp hp with h | h
    · exact Or.inl h
    · right
      simpa using h

theorem foldl_styleStep_length_le (items : List String) (m : StyleMap) :
    (items.foldl styleStep m).length ≤
      m.length + ((items.filter (fun i => (segKV i).isSome)).length) := by
  induction items generalizing m with
  | nil => simp
  | cons i items ih =>
    have hstep : (styleStep m i).length ≤
        m.length + (if (segKV i).isSome then 1 else 0) := by
      unfold styleStep
      cases hkv : segKV i with
      | none => simp [hkv]
      | some kv =>
        rw [dictInsert_length]
        split <;> simp [hkv]
    calc ((i :: items).foldl styleStep m).length
        = (items.foldl styleStep (styleStep m i)).length := rfl
      _ ≤ (styleStep m i).length +
            ((items.filter (fun i => (segKV i).isSome)).length) := ih _
      _ ≤ m.length + (if (segKV i).isSome then 1 else 0) +
            ((items.filter (fun i => (segKV i).isSome)).length) := by omega
      _ ≤ m.length + (((i :: items).filter (fun i => (segKV i).isSome)).length) := by
          rw [List.filter_cons]
          split
          · simp
            omega
          · simp

theorem foldl_styleStep_length_eq (items : List String) (m : StyleMap)
    (h : (m.map Prod.fst ++
      items.filterMap (fun i => (segKV i).map Prod.fst)).Nodup) :
    (items.foldl styleStep m).length =
      m.length + ((items.filter (fun i => (segKV i).isSome)).length) := by
  induction items generalizing m with
  | nil => simp
  | cons i items ih =>
    cases hkv : segKV i with
    | none =>
      have hstep : styleStep m i = m := by unfold styleStep; rw [hkv]
      have hkeys : List.filterMap (fun j => (segKV j).map Prod.fst) (i :: items) =
          List.filterMap (fun j => (segKV j).map Prod.fst) items := by
        simp [List.filterMap_cons, hkv]
      rw [hkeys] at h
      calc ((i :: items).foldl styleStep m).length
          = (items.foldl styleStep (styleStep m i)).length := rfl
        _ = (items.foldl styleStep m).length := by rw [hstep]
        _ = m.length + ((items.filter (fun j => (segKV j).isSome)).length) :=
            ih m h
        _ = m.length + (((i :: items).filter (fun j => (segKV j).isSome)).length) := by
            rw [List.filter_cons]
            simp [hkv]
    | some kv =>
      obtain ⟨k1, v1⟩ := kv
      have hkeys : List.filterMap (fun j => (segKV j).map Prod.fst) (i :: items) =
          k1 :: List.filterMap (fun j => (segKV j).map Prod.fst) items := by
        simp [List.filterMap_cons, hkv]
      rw [hkeys] at h
      have hmem : k1 ∉ m.map Prod.fst := by
        have hd := (List.nodup_append.mp h).2.2
        intro hin
        exact hd hin (List.mem_cons_self _ _)
      have hany : (m.any fun p => p.1 = k1) = false := by
        rw [List.any_eq_false]
        intro p hp
        simp only [decide_eq_true_eq]
        intro hpk
        exact hmem (List.mem_map.mpr ⟨p, hp, hpk⟩)
      have hstep : styleStep m i = m ++ [(k1, v1)] := by
        unfold styleStep
        rw [hkv]
        show dictInsert m k1 v1 = m ++ [(k1, v1)]
        unfold dictInsert
        rw [hany]
        simp
      have h' : ((m ++ [(k1, v1)]).map Prod.fst ++
          List.filterMap (fun j => (segKV j).map Prod.fst) items).Nodup := by
        rw [List.map_append, List.append_assoc]
        simpa using h
      calc ((i :: items).foldl styleStep m).length
          = (items.foldl styleStep (styleStep m i)).length := rfl
        _ = (items.foldl styleStep (m ++ [(k1, v1)])).length := by rw [hstep]
        _ = (m ++ [(k1, v1)]).length +
              ((items.filter (fun j => (segKV j).isSome)).length) := ih _ h'
        _ = m.length + (((i :: items).filter (fun j => (segKV j).isSome)).length) := by
            rw [List.filter_cons]
            simp [hkv]
            omega

theorem foldl_styleStep_mem (items : List String) (m : StyleMap)
    (p : String × String) (hp : p ∈ items.foldl styleStep m) :
    p ∈ m ∨ ∃ i ∈ items, segKV i = some p := by
  induction items generalizing m with
  | nil => exact Or.inl hp
  | cons i items ih =>
    rcases ih (styleStep m i) hp with h | ⟨j, hj, hjp⟩
    · unfold styleStep at h
      cases hkv : segKV i with
      | none =>
        rw [hkv] at h
        exact Or.inl h
      | some kv =>
        rw [hkv] at h
        rcases dictInsert_mem m kv.1 kv.2 p h with h' | h'
        · exact Or.inl h'
        · right
          exact ⟨i, List.mem_cons_self _ _, by rw [hkv, h']⟩
    · right
      exact ⟨j, List.mem_cons_of_mem _ hj, hjp⟩

/-- Claim C4 counterexample. The claim promises *exactly N* entries for N
segments containing a `:`.  With duplicate keys the Python dict collapses
them: `"a:1;a:2"` has two valid segments but the parsed StyleMap has a
single entry. -/
theorem c4_duplicate_keys_counterexample :
    (parse_style "a:1;a:2").length = 1 ∧ validSegCount "a:1;a:2" = 2 :=
  ⟨rfl, rfl⟩

/-- Claim C4, amended. For every style declaration string with N segments
containing a `:`, the parser returns a StyleMap with *at most* N entries,
and with exactly N entries when the normalized (trimmed, lower-cased)
keys of those segments are pairwise distinct; every entry is the
normalized key/value pair of one such segment (so keys are lower-cased
and trimmed, values trimmed); segments without a `:` contribute no
entry, and empty input yields an empty StyleMap, never an error. -/
theorem c4_parse_style_entries (s : String) :
    (parse_style s).length ≤ validSegCount s
    ∧ ((segKeys s).Nodup → (parse_style s).length = validSegCount s)
    ∧ (∀ p ∈ parse_style s, ∃ item ∈ splitOnChar ';' s, segKV item = some p)
    ∧ parse_style "" = [] := by
  have hfilter : ∀ (l : List String),
      l.filter (fun i => (segKV i).isSome) = l.filter (fun i => hasChar ':' i) :=
    fun l => List.filter_congr (fun a _ => segKV_isSome a)
  refine ⟨?_, ?_, ?_, rfl⟩
  · by_cases hs : s = ""
    · subst hs
      simp [parse_style]
    · unfold parse_style validSegCount
      rw [if_neg hs, ← hfilter]
      simpa using foldl_styleStep_length_le (splitOnChar ';' s) []
  · intro hnd
    by_cases hs : s = ""
    · subst hs
      rfl
    · unfold parse_style validSegCount
      rw [if_neg hs, ← hfilter]
      have h0 : ((List.map Prod.fst ([] : StyleMap)) ++
          (splitOnChar ';' s).filterMap (fun i => (segKV i).map Prod.fst)).Nodup := by
        simpa [segKeys] using hnd
      simpa using foldl_styleStep_length_eq (splitOnChar ';' s) [] h0
  · intro p hp
    by_cases hs : s = ""
    · subst hs
      simp [parse_style] at hp
    · unfold parse_style at hp
      rw [if_neg hs] at hp
      rcases foldl_styleStep_mem (splitOnChar ';' s) [] p hp with h | h
      · simp at h
      · exact h

/-- Claim C4 witness. On a concrete declaration with distinct keys the
entry count equals the valid-segment count. -/
theorem c4_parse_style_entries_witness :
    (parse_style "font-weight:700;color:#FF0000").length =
      validSegCount "font-weight:700;color:#FF0000" :=
  (c4_parse_style_entries "font-weight:700;color:#FF0000").2.1 (by decide)

/-! ### Shape lemmas for the node translator -/

theorem process_node_span_eq (fetch : String → FetchResult)
    (attrs : List (String × String)) (children : NodeList) :
    process_node fetch (.elem "span" attrs children) =
      match findTag "img" children with
      | some img => .ok (processImg fetch img)
      | none =>
        if getTextList children = "" then .ok ([], [])
        else
          match buildRun (getTextList children)
              (parse_style ((attrFind attrs "style").getD "")) with
          | .ok run => .ok ([Inline.run run], [])
          | .error e => .error e := rfl

theorem process_node_img_eq (fetch : String → FetchResult)
    (attrs : List (String × String)) (children : NodeList) :
    process_node fetch (.elem "img" attrs children) =
      .ok (processImg fetch (.elem "img" attrs children)) := rfl

theorem process_node_other_eq (fetch : String → FetchResult)
    (tag : String) (attrs : List (String × String)) (children : NodeList)
    (hspan : tag ≠ "span") (himg : tag ≠ "img") :
    process_node fetch (.elem tag attrs children) = .ok ([], []) := by
  simp only [process_node]
  rw [if_neg hspan, if_neg himg]

/-- The image branch appends no text run: its output is empty or a single
embedded image. -/
theorem processImg_no_run (fetch : String → FetchResult) (el : Node) :
    (processImg fetch el).1 = [] ∨
      ∃ c, (processImg fetch el).1 = [Inline.image c] := by
  cases el with
  | text s => left; rfl
  | elem t attrs cs =>
    simp only [processImg]
    cases hsrc : attrFind attrs "src" with
    | none => left; rfl
    | some src =>
      by_cases h : src = ""
      · left; simp [h]
      · cases hf : fetch src with
        | exn m => left; simp [h, hf]
        | ok st c =>
          by_cases h2 : st = 200
          · right; exact ⟨c, by simp [h, hf, h2]⟩
          · left; simp [h, hf, h2]

/-- Inversion of the span branch: a span that emitted a text run had no
nested image, had non-empty extracted text, and its run was built from
the style attribute of the span itself; no warning was emitted. -/
theorem process_node_span_run (fetch : String → FetchResult)
    (attrs : List (String × String)) (children : NodeList) (r : Run)
    (ws : List String)
    (h : process_node fetch (.elem "span" attrs children) =
      .ok ([Inline.run r], ws)) :
    findTag "img" children = none ∧
    getTextList children ≠ "" ∧
    buildRun (getTextList children)
      (parse_style ((attrFind attrs "style").getD "")) = .ok r ∧
    ws = [] := by
  rw [process_node_span_eq] at h
  cases himg : findTag "img" children with
  | some img =>
    exfalso
    rw [himg] at h
    have hp : (processImg fetch img) = ([Inline.run r], ws) := by
      exact Except.ok.inj h
    rcases processImg_no_run fetch img with h4 | ⟨c, h4⟩
    · rw [hp] at h4
      exact List.cons_ne_nil _ _ h4
    · rw [hp] at h4
      simp at h4
  | none =>
    rw [himg] at h
    by_cases htext : getTextList children = ""
    · exfalso
      rw [if_pos htext] at h
      have := Except.ok.inj h
      simp at this
    · rw [if_neg htext] at h
      refine ⟨rfl, htext, ?_⟩
      cases hbr : buildRun (getTextList children)
          (parse_style ((attrFind attrs "style").getD "")) with
      | error e =>
        exfalso
        rw [hbr] at h
        exact Except.noConfusion h
      | ok run =>
        rw [hbr] at h
        have := Except.ok.inj h
        have h1 : run = r := by
          have := congrArg Prod.fst this
          simpa using this
        have h2 : ws = [] := (congrArg Prod.snd this).symm
        exact ⟨by rw [← h1], h2⟩

/-! ### Bold tracking through the run builder -/

theorem runBold_applyItalic (styles : StyleMap) (r : Run) :
    runBold (applyItalic styles r) = runBold r := by
  unfold applyItalic
  cases hv : dictFind styles "font-style" with
  | none => rfl
  | some v =>
    by_cases hc : containsSub "italic" v
    · cases hp : r.rPr <;> simp [hc, setRPr, runBold, hp]
    · simp [hc]

theorem runBold_applyUnderline (styles : StyleMap) (r : Run) :
    runBold (applyUnderline styles r) = runBold r := by
  unfold applyUnderline
  cases hv : dictFind styles "text-decoration" with
  | none => rfl
  | some v =>
    by_cases hc : containsSub "underline" v
    · cases hp : r.rPr <;> simp [hc, setRPr, runBold, hp]
    · simp [hc]

theorem runBold_applyColor (styles : StyleMap) (r : Run) :
    runBold (applyColor styles r) = runBold r := by
  unfold applyColor
  cases hv : dictFind styles "color" with
  | none => rfl
  | some v =>
    by_cases hc : startsWithHash v
    · simp only [hc, if_true]
      cases hrgb : hex_to_rgb v with
      | none => rfl
      | some rgb => cases hp : r.rPr <;> simp [setRPr, runBold, hp]
    · simp [hc]

theorem runBold_applyBackground (styles : StyleMap) (r r' : Run)
    (h : applyBackground styles r = .ok r') : runBold r' = runBold r := by
  unfold applyBackground at h
  cases hv : dictFind styles "background-color" with
  | none =>
    rw [hv] at h
    rw [← Except.ok.inj h]
  | some bg =>
    rw [hv] at h
    have h2 : (if bg ≠ "transparent" ∧ startsWithHash bg = true
        then add_highlight r bg else Except.ok r) = Except.ok r' := h
    by_cases hc : bg ≠ "transparent" ∧ startsWithHash bg = true
    · rw [if_pos hc] at h2
      unfold add_highlight at h2
      cases hp : r.rPr with
      | none =>
        rw [hp] at h2
        exact absurd h2 (by simp)
      | some p =>
        rw [hp] at h2
        rw [← Except.ok.inj h2]
        simp [runBold, hp]
    · rw [if_neg hc] at h2
      rw [← Except.ok.inj h2]

/-- Bold of a successfully built run is exactly the condition the source puts on
the `font-weight` value. -/
theorem buildRun_bold (text : String) (styles : StyleMap) (r : Run)
    (h : buildRun text styles = .ok r) :
    runBold r =
      match dictFind styles "font-weight" with
      | some v => containsSub "700" v || containsSub "bold" v
      | none => false := by
  unfold buildRun at h
  have h1 := runBold_applyBackground _ _ _ h
  rw [h1, runBold_applyColor, runBold_applyUnderline, runBold_applyItalic]
  unfold applyBold
  cases hv : dictFind styles "font-weight" with
  | none => rfl
  | some v =>
    by_cases hc : containsSub "700" v || containsSub "bold" v
    · simp [hc, setRPr, runBold]
    · simp [hc, runBold]

/-- Claim C9 (confirmed). For every styled span that emitted a Run: when the
StyleMap of the span has a `font-weight` value containing `"700"` or `"bold"`, the
Run is bold; when the value is `"normal"` or the key is absent, the Run
is not bold. -/
theorem c9_bold_mapping (fetch : String → FetchResult)
    (attrs : List (String × String)) (children : NodeList) (r : Run)
    (ws : List String)
    (h : process_node fetch (.elem "span" attrs children) =
      .ok ([Inline.run r], ws)) :
    (∀ v, dictFind (parse_style ((attrFind attrs "style").getD ""))
        "font-weight" = some v →
      (containsSub "700" v || containsSub "bold" v) = true → runBold r = true)
    ∧ (dictFind (parse_style ((attrFind attrs "style").getD ""))
        "font-weight" = some "normal" → runBold r = false)
    ∧ (dictFind (parse_style ((attrFind attrs "style").getD ""))
        "font-weight" = none → runBold r = false) := by
  obtain ⟨-, -, hbr, -⟩ := process_node_span_run fetch attrs children r ws h
  have hb := buildRun_bold _ _ _ hbr
  refine ⟨?_, ?_, ?_⟩
  · intro v hv hcond
    rw [hb, hv]
    exact hcond
  · intro hv
    rw [hb, hv]
    rfl
  · intro hv
    rw [hb, hv]

/-- Claim C9 witness. A concrete span with `font-weight:700` produces a
bold run. -/
theorem c9_bold_mapping_witness :
    runBold { text := "x", rPr := some { bold := true } } = true :=
  (c9_bold_mapping noFetch [("style", "font-weight:700")] (nodes [.text "x"])
    { text := "x", rPr := some { bold := true } } [] (by rfl)).1 "700"
    (by rfl) (by rfl)

/-- Claim C1 (confirmed). A styled span containing a nested image delegates entirely to
the image branch: no text Run is ever emitted for the span, and when the
fetch of the nested image `src` succeeds with status 200 the whole span
output is exactly that one embedded image — regardless of what descendant
text the span holds. -/
theorem c1_span_image_precedence (fetch : String → FetchResult)
    (attrs iattrs : List (String × String)) (children ichildren : NodeList)
    (itag : String)
    (hfind : findTag "img" children = some (.elem itag iattrs ichildren)) :
    (∀ out ws, process_node fetch (.elem "span" attrs children) =
        .ok (out, ws) → ∀ r, Inline.run r ∉ out)
    ∧ (∀ src bytes, attrFind iattrs "src" = some src → src ≠ "" →
        fetch src = .ok 200 bytes →
        process_node fetch (.elem "span" attrs children) =
          .ok ([Inline.image bytes], [])) := by
  constructor
  · intro out ws h r hmem
    rw [process_node_span_eq, hfind] at h
    have hp := Except.ok.inj h
    rcases processImg_no_run fetch (.elem itag iattrs ichildren) with h4 | ⟨c, h4⟩
    · rw [hp] at h4
      simp only at h4
      rw [h4] at hmem
      exact List.not_mem_nil _ hmem
    · rw [hp] at h4
      simp only at h4
      rw [h4] at hmem
      simp at hmem
  · intro src bytes hsrc hne hfetch
    rw [process_node_span_eq, hfind]
    have himg : processImg fetch (.elem itag iattrs ichildren) =
        ([Inline.image bytes], []) := by
      simp [processImg, hsrc, hne, hfetch]
    show Except.ok (processImg fetch (.elem itag iattrs ichildren)) =
      Except.ok ([Inline.image bytes], [])
    rw [himg]

/-- Claim C1 witness. A span holding both caption text and an image emits
exactly the image. -/
theorem c1_span_image_precedence_witness :
    process_node (fun _ => FetchResult.ok 200 [7])
      (.elem "span" [("style", "font-weight:700")]
        (nodes [.text "caption", .elem "img" [("src", "u")] .nil])) =
      .ok ([Inline.image [7]], []) :=
  (c1_span_image_precedence (fun _ => FetchResult.ok 200 [7])
    [("style", "font-weight:700")] [("src", "u")]
    (nodes [.text "caption", .elem "img" [("src", "u")] .nil]) .nil "img"
    (by rfl)).2 "u" [7] (by rfl) (by decide) (by rfl)

/-- Claim C10, a code bug. The claim says a `background-color` that is
present, not `transparent` and begins with `#` is applied as a shading
fill *without error*.  The fill value is indeed the raw hex string with
the `#` removed, and `transparent` yields no highlight — but the
application only works when the run already carries an `rPr` element
(some earlier property setter created it).  For a span whose *only*
styling is the background color, `add_highlight` reads `run._r.rPr`,
which is `None`, and the conversion raises `AttributeError`. -/
theorem c10_highlight_crash :
    process_node noFetch (.elem "span"
        [("style", "background-color:#ffff00")] (nodes [.text "x"])) =
      .error "AttributeError"
    ∧ process_node noFetch (.elem "span"
        [("style", "font-weight:bold;background-color:#AABBCC")]
        (nodes [.text "x"])) =
      .ok ([Inline.run { text := "x", rPr := some { bold := true, shading := some "AABBCC" } }], [])
    ∧ process_node noFetch (.elem "span"
        [("style", "font-weight:bold;background-color:transparent")]
        (nodes [.text "x"])) =
      .ok ([Inline.run { text := "x", rPr := some { bold := true } }], []) :=
  ⟨rfl, rfl, rfl⟩

/-- Claim C8 counterexample. The claim says a fetch returning an HTTP
status other than 200 surfaces a non-fatal warning.  On a 404 the
status check of the source (`if response.status_code == 200`) simply falls through: the
image is skipped with *no* warning at all. -/
theorem c8_status_no_warning_counterexample :
    process_node (fun _ => FetchResult.ok 404 [1])
      (.elem "img" [("src", "u")] .nil) = .ok ([], []) := rfl

/-- Claim C8, amended. For an image node with a non-empty `src`: a fetch
that raises in transport skips the embedding and surfaces exactly one
non-fatal warning; a fetch returning a status other than 200 skips the
embedding silently (no warning); and the image branch never raises, so
the conversion continues and the surrounding paragraphs are still
produced. -/
theorem c8_image_failure_handling (fetch : String → FetchResult)
    (attrs : List (String × String)) (children : NodeList) (src : String)
    (hsrc : attrFind attrs "src" = some src) (hne : src ≠ "") :
    (∀ msg, fetch src = .exn msg →
      process_node fetch (.elem "img" attrs children) =
        .ok ([], ["Failed to download image: " ++ msg]))
    ∧ (∀ st c, fetch src = .ok st c → st ≠ 200 →
        process_node fetch (.elem "img" attrs children) = .ok ([], []))
    ∧ (∀ (a : List (String × String)) (cn : NodeList), ∃ res,
        process_node fetch (.elem "img" a cn) = .ok res) := by
  refine ⟨?_, ?_, ?_⟩
  · intro msg hf
    rw [process_node_img_eq]
    have himg : processImg fetch (.elem "img" attrs children) =
        ([], ["Failed to download image: " ++ msg]) := by
      simp [processImg, hsrc, hne, hf]
    rw [himg]
  · intro st c hf hst
    rw [process_node_img_eq]
    have himg : processImg fetch (.elem "img" attrs children) = ([], []) := by
      simp [processImg, hsrc, hne, hf, hst]
    rw [himg]
  · intro a cn
    exact ⟨processImg fetch (.elem "img" a cn), process_node_img_eq fetch a cn⟩

/-- Claim C8 witness. A transport failure produces the single warning, and
(computed directly) one 404 image among three paragraphs still yields
three Paragraphs, the failing one merely missing its image block. -/
theorem c8_image_failure_handling_witness :
    process_node (fun _ => FetchResult.exn "timeout")
      (.elem "img" [("src", "u")] .nil) =
      .ok ([], ["Failed to download image: timeout"])
    ∧ crawl_and_get_doc_object (fun _ => FetchResult.ok 404 [])
        [.elem "body" [] (nodes
          [.elem "p" [] (nodes [.text "one"]),
           .elem "p" [] (nodes [.elem "img" [("src", "u")] .nil]),
           .elem "p" [] (nodes [.text "three"])])] =
      .ok ([{ spaceAfter := 0, lineSpacing := 1, alignment := none,
              inlines := [Inline.run { text := "one", rPr := none }] },
            { spaceAfter := 0, lineSpacing := 1, alignment := none,
              inlines := [] },
            { spaceAfter := 0, lineSpacing := 1, alignment := none,
              inlines := [Inline.run { text := "three", rPr := none }] }],
           []) :=
  ⟨(c8_image_failure_handling (fun _ => FetchResult.exn "timeout")
      [("src", "u")] .nil "u" (by rfl) (by decide)).1 "timeout" (by rfl),
   rfl⟩

/-- Claim C6 counterexample. The claim says the translator recurses into
the children of any other tag, so nested Runs/Images still appear.  The
`process_node` of the source has no fallback branch: an anchor wrapper around
text emits nothing, while the same text as a direct child emits a run. -/
theorem c6_wrapper_dropped_counterexample :
    process_node noFetch (.elem "a" [] (nodes [.text "hello"])) = .ok ([], [])
    ∧ process_node noFetch (.text "hello") =
      .ok ([Inline.run { text := "hello", rPr := none }], []) :=
  ⟨rfl, rfl⟩

/-- Claim C6, amended. An element whose tag is neither `span` nor `img`
matches no branch of the Node Translator: it produces no output at all
and the translator does not recurse into its children, so Runs and
Images inside such structural wrappers are dropped. -/
theorem c6_other_tags_no_output (fetch : String → FetchResult) (tag : String)
    (attrs : List (String × String)) (children : NodeList)
    (hspan : tag ≠ "span") (himg : tag ≠ "img") :
    process_node fetch (.elem tag attrs children) = .ok ([], []) :=
  process_node_other_eq fetch tag attrs children hspan himg

/-- Claim C6 witness. A `div` wrapping a styled span with text still
produces nothing. -/
theorem c6_other_tags_no_output_witness :
    process_node noFetch
      (.elem "div" [] (nodes [.elem "span" [] (nodes [.text "z"])])) =
      .ok ([], []) :=
  c6_other_tags_no_output noFetch "div" []
    (nodes [.elem "span" [] (nodes [.text "z"])]) (by decide) (by decide)

/-- Claim C7 counterexample. The claim makes the own style attribute of a
nested child span the sole source of the formatting applied to its text.
In the code the outer span absorbs all descendant text into one run
styled by the *outer* style attribute: a child span declaring
`font-weight:700` inside an unstyled outer span yields a run with no
formatting at all, although the same child processed on its own yields a
bold run. -/
theorem c7_nested_span_counterexample :
    process_node noFetch (.elem "span" []
        (nodes [.elem "span" [("style", "font-weight:700")]
          (nodes [.text "x"])])) =
      .ok ([Inline.run { text := "x", rPr := none }], [])
    ∧ process_node noFetch
        (.elem "span" [("style", "font-weight:700")] (nodes [.text "x"])) =
      .ok ([Inline.run { text := "x", rPr := some { bold := true } }], []) :=
  ⟨rfl, rfl⟩

/-- Claim C7, amended. The StyleMap applied to a processed span is built
solely from the own inline style attribute of that span, never merged
with that of an ancestor or descendant: the attribute dict of a span nested inside a
processed span is ignored entirely (the output is unchanged under any
replacement of it), and a run emitted for a processed span is built
exactly from the own style attribute and extracted text of the span. -/
theorem c7_own_style_only (fetch : String → FetchResult)
    (oattrs i1attrs i2attrs : List (String × String)) (grand : NodeList) :
    process_node fetch (.elem "span" oattrs
        (.cons (.elem "span" i1attrs grand) .nil)) =
      process_node fetch (.elem "span" oattrs
        (.cons (.elem "span" i2attrs grand) .nil))
    ∧ (∀ r ws, process_node fetch (.elem "span" oattrs
          (.cons (.elem "span" i1attrs grand) .nil)) =
            .ok ([Inline.run r], ws) →
        buildRun (getTextList (.cons (.elem "span" i1attrs grand) .nil))
          (parse_style ((attrFind oattrs "style").getD "")) = .ok r) := by
  constructor
  · rfl
  · intro r ws h
    exact (process_node_span_run fetch oattrs _ r ws h).2.2.1

/-- Claim C7 witness. An italic outer span around a child span declaring
bold emits an italic (not bold) run built from the outer declaration. -/
theorem c7_own_style_only_witness :
    buildRun (getTextList (.cons (.elem "span" [("style", "font-weight:700")]
        (nodes [.text "x"])) .nil))
      (parse_style ((attrFind [("style", "font-style:italic")] "style").getD "")) =
      .ok { text := "x", rPr := some { italic := true } } :=
  (c7_own_style_only noFetch [("style", "font-style:italic")]
      [("style", "font-weight:700")] [] (nodes [.text "x"])).2
    { text := "x", rPr := some { italic := true } } [] (by rfl)

/-- Alignment resolution yields the default for any unrecognized value. -/
theorem resolveAlign_other (v : String) (h1 : v ≠ "center")
    (h2 : v ≠ "right") (h3 : v ≠ "justify") : resolveAlign (some v) = none := by
  unfold resolveAlign
  split <;> simp_all

/-- Claim C5 (confirmed). Every Paragraph the assembler produces has space-after 0 and
line-spacing 1.0, and its alignment is resolved from the own
`text-align` value: `center`, `right` (end) and `justify` map to those
alignments, and an absent or unrecognized value leaves the default
(start) alignment. -/
theorem c5_paragraph_formatting (fetch : String → FetchResult) (p : Node)
    (para : Paragraph) (ws : List String)
    (h : assembleP fetch p = .ok (some para, ws)) :
    para.spaceAfter = 0 ∧ para.lineSpacing = 1
    ∧ (dictFind (parse_style (styleAttr p)) "text-align" = some "center" →
        para.alignment = some .center)
    ∧ (dictFind (parse_style (styleAttr p)) "text-align" = some "right" →
        para.alignment = some .right)
    ∧ (dictFind (parse_style (styleAttr p)) "text-align" = some "justify" →
        para.alignment = some .justify)
    ∧ (∀ v, dictFind (parse_style (styleAttr p)) "text-align" = some v →
        v ≠ "center" → v ≠ "right" → v ≠ "justify" → para.alignment = none)
    ∧ (dictFind (parse_style (styleAttr p)) "text-align" = none →
        para.alignment = none) := by
  unfold assembleP at h
  by_cases hskip :
      (pyStrip (getText p) = "" && !(findDesc "img" p).isSome) = true
  · rw [if_pos hskip] at h
    exact absurd (Except.ok.inj h) (by simp)
  · rw [if_neg hskip] at h
    cases hpc : processChildren fetch (childrenOf p) with
    | error e =>
      rw [hpc] at h
      exact Except.noConfusion h
    | ok pr =>
      obtain ⟨inls, ws2⟩ := pr
      rw [hpc] at h
      have hinj := Except.ok.inj h
      have hpara := Option.some.inj (congrArg Prod.fst hinj)
      rw [← hpara]
      refine ⟨rfl, rfl, ?_, ?_, ?_, ?_, ?_⟩
      · intro hv
        show resolveAlign (dictFind (parse_style (styleAttr p)) "text-align") =
          some Align.center
        rw [hv]
        rfl
      · intro hv
        show resolveAlign (dictFind (parse_style (styleAttr p)) "text-align") =
          some Align.right
        rw [hv]
        rfl
      · intro hv
        show resolveAlign (dictFind (parse_style (styleAttr p)) "text-align") =
          some Align.justify
        rw [hv]
        rfl
      · intro v hv h1 h2 h3
        show resolveAlign (dictFind (parse_style (styleAttr p)) "text-align") =
          none
        rw [hv]
        exact resolveAlign_other v h1 h2 h3
      · intro hv
        show resolveAlign (dictFind (parse_style (styleAttr p)) "text-align") =
          none
        rw [hv]
        rfl

/-- Claim C5 witness. A centered paragraph is produced with the fixed
formatting and center alignment. -/
theorem c5_paragraph_formatting_witness :
    ({ spaceAfter := 0, lineSpacing := 1, alignment := some Align.center,
       inlines := [Inline.run { text := "hi", rPr := none }] } :
      Paragraph).alignment = some Align.center :=
  (c5_paragraph_formatting noFetch
    (.elem "p" [("style", "text-align:center")] (nodes [.text "hi"]))
    { spaceAfter := 0, lineSpacing := 1, alignment := some Align.center,
      inlines := [Inline.run { text := "hi", rPr := none }] } []
    (by rfl)).2.2.1 (by rfl)

/-- Claim C3 (confirmed). A paragraph-level node is skipped — no Paragraph, no warnings
— exactly when its extracted (stripped) text is empty and it has no image
descendant; and a paragraph node whose only child is an image whose fetch
succeeds with status 200 produces exactly one Paragraph containing
exactly one image output. -/
theorem c3_skip_iff (fetch : String → FetchResult) (p : Node) :
    (assembleP fetch p = .ok (none, []) ↔
      pyStrip (getText p) = "" ∧ findDesc "img" p = none)
    ∧ (∀ ptag pattrs iattrs ichildren src bytes,
        p = .elem ptag pattrs (.cons (.elem "img" iattrs ichildren) .nil) →
        attrFind iattrs "src" = some src → src ≠ "" →
        fetch src = .ok 200 bytes →
        ∃ align, assembleP fetch p =
          .ok (some { spaceAfter := 0, lineSpacing := 1, alignment := align,
                      inlines := [Inline.image bytes] }, [])) := by
  constructor
  · constructor
    · intro h
      unfold assembleP at h
      by_cases hskip :
          (pyStrip (getText p) = "" && !(findDesc "img" p).isSome) = true
      · simp only [Bool.and_eq_true, decide_eq_true_eq,
          Bool.not_eq_true'] at hskip
        obtain ⟨h1, h2⟩ := hskip
        refine ⟨h1, ?_⟩
        cases hfd : findDesc "img" p with
        | none => rfl
        | some x =>
          rw [hfd] at h2
          exact absurd h2 (by simp)
      · exfalso
        rw [if_neg hskip] at h
        cases hpc : processChildren fetch (childrenOf p) with
        | error e =>
          rw [hpc] at h
          exact Except.noConfusion h
        | ok pr =>
          obtain ⟨inls, ws2⟩ := pr
          rw [hpc] at h
          have := congrArg Prod.fst (Except.ok.inj h)
          simp at this
    · intro ⟨h1, h2⟩
      unfold assembleP
      rw [if_pos (by simp [h1, h2])]
  · intro ptag pattrs iattrs ichildren src bytes hp hsrc hne hf
    subst hp
    refine ⟨resolveAlign (dictFind (parse_style
      ((attrFind pattrs "style").getD "")) "text-align"), ?_⟩
    unfold assembleP
    have himg : findDesc "img"
        (Node.elem ptag pattrs (.cons (.elem "img" iattrs ichildren) .nil)) =
        some (.elem "img" iattrs ichildren) := by
      show findTag "img" (.cons (.elem "img" iattrs ichildren) .nil) = _
      simp [findTag, findTagNode]
    rw [if_neg (by rw [himg]; simp)]
    have hnode : process_node fetch (.elem "img" iattrs ichildren) =
        .ok ([Inline.image bytes], []) := by
      rw [process_node_img_eq]
      have h2 : processImg fetch (.elem "img" iattrs ichildren) =
          ([Inline.image bytes], []) := by
        simp [processImg, hsrc, hne, hf]
      rw [h2]
    have hchild : processChildren fetch
        (.cons (.elem "img" iattrs ichildren) .nil) =
        .ok ([Inline.image bytes], []) := by
      simp [processChildren, hnode]
    simp only [childrenOf]
    rw [hchild]
    rfl

/-- Claim C3 witness. A paragraph holding only an image (fetch succeeding)
yields exactly one Paragraph with exactly one image; and a concrete
empty paragraph is skipped. -/
theorem c3_skip_iff_witness :
    (∃ align, assembleP (fun _ => FetchResult.ok 200 [9])
      (.elem "p" [] (.cons (.elem "img" [("src", "u")] .nil) .nil)) =
      .ok (some { spaceAfter := 0, lineSpacing := 1, alignment := align,
                  inlines := [Inline.image [9]] }, []))
    ∧ assembleP (fun _ => FetchResult.ok 200 [9]) (.elem "p" [] .nil) =
      .ok (none, []) :=
  ⟨(c3_skip_iff (fun _ => FetchResult.ok 200 [9])
      (.elem "p" [] (.cons (.elem "img" [("src", "u")] .nil) .nil))).2
    "p" [] [("src", "u")] .nil "u" [9] rfl rfl (by decide) rfl,
   (c3_skip_iff (fun _ => FetchResult.ok 200 [9])
      (.elem "p" [] .nil)).1.mpr (by constructor <;> rfl)⟩

/-- Claim C2 counterexample. The claim says a parse that yields no body
element still gives an empty DocumentModel with no error.  In the source
`soup.body` is then `None`, and the p-element search on it raises
`AttributeError` — only the page fetch is guarded by a try block. -/
theorem c2_missing_body_counterexample :
    crawl_and_get_doc_object noFetch
      [.elem "html" [] (nodes [.elem "p" [] (nodes [.text "hi"])])] =
      .error "AttributeError" := rfl

/-- Claim C2, amended. When the parse yields a body element with no `p`
descendants, the translation returns a DocumentModel with zero
Paragraphs and no error; when the parse yields no body element at all,
the engine raises `AttributeError` instead of returning an empty
DocumentModel. -/
theorem c2_empty_body_empty_doc (fetch : String → FetchResult)
    (root : List Node) :
    (∀ body, findTag "body" (nodes root) = some body →
      findAllPList (childrenOf body) = [] →
      crawl_and_get_doc_object fetch root = .ok ([], []))
    ∧ (findTag "body" (nodes root) = none →
        crawl_and_get_doc_object fetch root = .error "AttributeError") := by
  constructor
  · intro body hb hp
    unfold crawl_and_get_doc_object
    rw [hb]
    show crawlBody fetch (findAllPList (childrenOf body)) = .ok ([], [])
    rw [hp]
    rfl
  · intro hb
    unfold crawl_and_get_doc_object
    rw [hb]

/-- Claim C2 witness. A body containing only a `div` yields zero
paragraphs and no error. -/
theorem c2_empty_body_empty_doc_witness :
    crawl_and_get_doc_object noFetch
      [.elem "html" [] (nodes [.elem "body" [] (nodes [.elem "div" [] .nil])])] =
      .ok ([], []) :=
  (c2_empty_body_empty_doc noFetch
    [.elem "html" [] (nodes [.elem "body" [] (nodes [.elem "div" [] .nil])])]).1
    (.elem "body" [] (nodes [.elem "div" [] .nil])) (by rfl) (by rfl)

end DocxCrawler
